import Mathlib

/-!
Verification of the EasyTextToImage library (`easy_text_to_image/color.py` and
`easy_text_to_image/text_to_image.py`) against its natural-language specification.

The Python code is shallowly embedded: Python ints become `Int`/`Nat`, Python
floats that carry exact decimal values (`space`, `0.9`) become `ℚ`, PIL images
become explicit width/height/pixel-function records, and PIL calls that can
raise (`Image.new` with negative size, `Image.crop` with an inverted box,
`Image.alpha_composite` with a negative destination) return `Option`.
Unbounded `while` loops are modelled with an explicit fuel argument; `none`
from fuel exhaustion corresponds to the loop not having exited yet.
External collaborators (FreeType glyph measurement, the rasteriser that draws
glyph pixels, alpha blending of two RGBA pixels, font-file loading) are
universally quantified parameters, since the repository treats them as an
opaque library.
-/

namespace EasyTextToImage

/-! ## color.py -/

/-- First `while` loop of `get_hue_in_range` (color.py:18-19):
`while modified_hue < 0: modified_hue += 360`. -/
def hue_raise (hue : Int) : Int :=
  if hue < 0 then hue_raise (hue + 360) else hue
termination_by (-hue).toNat
decreasing_by omega

/-- Second `while` loop of `get_hue_in_range` (color.py:21-22):
`while modified_hue > 359: modified_hue -= 360`. -/
def hue_lower (hue : Int) : Int :=
  if hue > 359 then hue_lower (hue - 360) else hue
termination_by hue.toNat
decreasing_by omega

/-- `get_hue_in_range` (color.py:7-24): run the raising loop, then the
lowering loop. -/
def get_hue_in_range (hue : Int) : Int := hue_lower (hue_raise hue)

theorem hue_raise_eq (h : Int) : hue_raise h = if h < 0 then h % 360 else h := by
  rw [hue_raise]
  split
  · rw [hue_raise_eq (h + 360)]
    split <;> omega
  · simp
termination_by (-h).toNat
decreasing_by omega

theorem hue_lower_eq (x : Int) (hx : 0 ≤ x) : hue_lower x = x % 360 := by
  rw [hue_lower]
  split
  · rw [hue_lower_eq (x - 360) (by omega)]
    omega
  · omega
termination_by x.toNat
decreasing_by omega

theorem get_hue_in_range_eq (h : Int) : get_hue_in_range h = h % 360 := by
  unfold get_hue_in_range
  rw [hue_raise_eq]
  split
  · rw [hue_lower_eq _ (by omega)]
    omega
  · rw [hue_lower_eq _ (by omega)]

/-- `get_hue_offsets` (color.py:26-40): `for i in range(0, int(360/offset)):
hues.append(get_hue_in_range(hue + (i * offset)))`.  For positive `offset`,
Python's `int(360/offset)` agrees with integer division.  (`offset = 0`
raises `ZeroDivisionError` in Python; the claims only concern positive
offsets.) -/
def get_hue_offsets (hue : Int) (offset : Int) : List Int :=
  (List.range ((360 / offset : Int)).toNat).map
    (fun (i : Nat) => get_hue_in_range (hue + (i : Int) * offset))

/-- `rgb_to_hex_color` channel formatting (color.py:52-54):
`hex(value)[2:].zfill(2).lower()`.  `Nat.toDigits 16` produces the same
lowercase hex digit string as Python's `hex` (without the `0x` prefix). -/
def byte_hex (n : Nat) : String :=
  let s := String.mk (Nat.toDigits 16 n)
  if s.length < 2 then "0" ++ s else s

/-- `rgb_to_hex_color` (color.py:42-56): `f"#{red}{green}{blue}ff"`. -/
def rgb_to_hex_color (rgb : Nat × Nat × Nat) : String :=
  let red := byte_hex rgb.1
  let green := byte_hex rgb.2.1
  let blue := byte_hex rgb.2.2
  "#" ++ red ++ green ++ blue ++ "ff"

/-- Modelled from the spec: a single hex digit of a `#RRGGBBAA` color string
("parsing its output recovers the original triple").  Lowercase digits, as
produced by the code. -/
def parse_hex_digit (c : Char) : Option Nat :=
  if '0' ≤ c ∧ c ≤ '9' then some (c.toNat - '0'.toNat)
  else if 'a' ≤ c ∧ c ≤ 'f' then some (c.toNat - 'a'.toNat + 10)
  else none

/-- Modelled from the spec: one two-digit hex channel value. -/
def parse_hex_pair (c1 c2 : Char) : Option Nat := do
  let a ← parse_hex_digit c1
  let b ← parse_hex_digit c2
  some (16 * a + b)

/-- Modelled from the spec: parse a `#RRGGBBAA` string into its four
channels. -/
def parse_hex_color (s : String) : Option (Nat × Nat × Nat × Nat) :=
  match s.toList with
  | ['#', r1, r2, g1, g2, b1, b2, a1, a2] => do
    let r ← parse_hex_pair r1 r2
    let g ← parse_hex_pair g1 g2
    let b ← parse_hex_pair b1 b2
    let a ← parse_hex_pair a1 a2
    some (r, g, b, a)
  | _ => none

set_option maxRecDepth 4000 in
theorem byte_hex_eq : ∀ n, n < 256 →
    byte_hex n = String.mk [Nat.digitChar (n / 16), Nat.digitChar (n % 16)] := by
  decide

theorem parse_hex_pair_digitChar : ∀ a, a < 16 → ∀ b, b < 16 →
    parse_hex_pair (Nat.digitChar a) (Nat.digitChar b) = some (16 * a + b) := by
  decide

/-- C7: for every hue and positive offset, `get_hue_offsets` has length
`⌊360/offset⌋`, its first element (when the list is non-empty) is
`get_hue_in_range hue`, consecutive elements differ by exactly `offset`
modulo 360, and the two end-to-end examples from the spec hold. -/
theorem get_hue_offsets_spec (hue offset : Int) (hpos : 0 < offset) :
    ((get_hue_offsets hue offset).length = ((360 / offset : Int)).toNat ∧
      (get_hue_offsets hue offset ≠ [] →
        (get_hue_offsets hue offset).head? = some (get_hue_in_range hue)) ∧
      ∀ i (h1 : i + 1 < (get_hue_offsets hue offset).length)
          (h2 : i < (get_hue_offsets hue offset).length),
        ((get_hue_offsets hue offset).get ⟨i + 1, h1⟩ -
            (get_hue_offsets hue offset).get ⟨i, h2⟩) % 360 = offset % 360) ∧
    get_hue_offsets 0 120 = [0, 120, 240] ∧
    get_hue_offsets 128 120 = [128, 248, 8] := by
  refine ⟨⟨?_, ?_, ?_⟩, ?_, ?_⟩
  · simp only [get_hue_offsets, List.length_map, List.length_range]
  · intro hne
    rcases hn : ((360 / offset : Int)).toNat with _ | n
    · exfalso
      apply hne
      simp [get_hue_offsets, hn]
    · simp [get_hue_offsets, hn, List.range_succ_eq_map]
  · intro i h1 h2
    simp only [get_hue_offsets, List.get_eq_getElem, List.getElem_map,
      List.getElem_range]
    rw [get_hue_in_range_eq, get_hue_in_range_eq, ← Int.sub_emod]
    congr 1
    push_cast
    ring
  · have hr3 : List.range ((360 / (120 : Int)).toNat) = [0, 1, 2] := by decide
    simp only [get_hue_offsets, hr3, List.map_cons, List.map_nil,
      get_hue_in_range_eq]
    decide
  · have hr3 : List.range ((360 / (120 : Int)).toNat) = [0, 1, 2] := by decide
    simp only [get_hue_offsets, hr3, List.map_cons, List.map_nil,
      get_hue_in_range_eq]
    decide

/-- C7 witness: the theorem instantiated at hue 0, offset 120. -/
theorem get_hue_offsets_spec_witness :
    (get_hue_offsets 0 120).length = ((360 / 120 : Int)).toNat :=
  (get_hue_offsets_spec 0 120 (by decide)).1.1

/-- C8: for channels in [0,255], parsing the `#RRGGBBAA` string produced by
`rgb_to_hex_color` recovers the original triple with alpha `0xff = 255`. -/
theorem rgb_to_hex_color_round_trip (r g b : Nat)
    (hr : r ≤ 255) (hg : g ≤ 255) (hb : b ≤ 255) :
    parse_hex_color (rgb_to_hex_color (r, g, b)) = some (r, g, b, 255) := by
  have hrl := byte_hex_eq r (by omega)
  have hgl := byte_hex_eq g (by omega)
  have hbl := byte_hex_eq b (by omega)
  have hs : rgb_to_hex_color (r, g, b) =
      String.mk ['#', Nat.digitChar (r / 16), Nat.digitChar (r % 16),
        Nat.digitChar (g / 16), Nat.digitChar (g % 16),
        Nat.digitChar (b / 16), Nat.digitChar (b % 16), 'f', 'f'] := by
    simp only [rgb_to_hex_color, hrl, hgl, hbl]
    rfl
  rw [hs]
  show (do
    let rv ← parse_hex_pair (Nat.digitChar (r / 16)) (Nat.digitChar (r % 16))
    let gv ← parse_hex_pair (Nat.digitChar (g / 16)) (Nat.digitChar (g % 16))
    let bv ← parse_hex_pair (Nat.digitChar (b / 16)) (Nat.digitChar (b % 16))
    let av ← parse_hex_pair 'f' 'f'
    some (rv, gv, bv, av)) = some (r, g, b, 255)
  rw [parse_hex_pair_digitChar (r / 16) (by omega) (r % 16) (by omega)]
  rw [parse_hex_pair_digitChar (g / 16) (by omega) (g % 16) (by omega)]
  rw [parse_hex_pair_digitChar (b / 16) (by omega) (b % 16) (by omega)]
  show some (16 * (r / 16) + r % 16, 16 * (g / 16) + g % 16,
    16 * (b / 16) + b % 16, 255) = some (r, g, b, 255)
  have e1 : 16 * (r / 16) + r % 16 = r := by omega
  have e2 : 16 * (g / 16) + g % 16 = g := by omega
  have e3 : 16 * (b / 16) + b % 16 = b := by omega
  rw [e1, e2, e3]

/-- C8 witness: the round trip at (255, 0, 128). -/
theorem rgb_to_hex_color_round_trip_witness :
    parse_hex_color (rgb_to_hex_color (255, 0, 128)) = some (255, 0, 128, 255) :=
  rgb_to_hex_color_round_trip 255 0 128 (by decide) (by decide) (by decide)

/-! ## Pixel buffers and PIL primitives -/

/-- An RGBA pixel, as returned by `Image.getpixel` on an RGBA image and by
`ImageColor.getrgb` on an 8-digit hex color. -/
abbrev RGBA := Nat × Nat × Nat × Nat

/-- A PIL image: a pixel grid with explicit size.  `pix` is only meaningful
on coordinates inside the `width × height` rectangle. -/
structure Img (α : Type) where
  width : Nat
  height : Nat
  pix : Nat → Nat → α

/-- `Image.new(mode, size, color)`: PIL raises `ValueError` on a negative
dimension (zero is allowed), hence the `Option`. -/
def imageNew (w h : Int) (c : RGBA) : Option (Img RGBA) :=
  if w < 0 ∨ h < 0 then none else some ⟨w.toNat, h.toNat, fun _ _ => c⟩

/-- `Image.crop((l, t, r, b))`: result has size `(r-l) × (b-t)`; pixels
outside the source are filled with zeros; PIL raises if the box is
inverted. -/
def cropImg (img : Img RGBA) (l t r b : Int) : Option (Img RGBA) :=
  if r < l ∨ b < t then none
  else some ⟨(r - l).toNat, (b - t).toNat, fun x y =>
    let sx := l + (x : Int)
    let sy := t + (y : Int)
    if 0 ≤ sx ∧ sx < (img.width : Int) ∧ 0 ≤ sy ∧ sy < (img.height : Int) then
      img.pix sx.toNat sy.toNat
    else (0, 0, 0, 0)⟩

/-- `Image.alpha_composite(overlay, dest)`: PIL raises `ValueError` when the
destination offset is negative; otherwise the overlay is alpha-blended onto
the destination (clipped to the destination bounds), with the destination's
size unchanged.  `blend` is the opaque per-pixel alpha-blending operation. -/
def alphaComposite (blend : RGBA → RGBA → RGBA) (dest src : Img RGBA)
    (dx dy : Int) : Option (Img RGBA) :=
  if dx < 0 ∨ dy < 0 then none
  else some ⟨dest.width, dest.height, fun x y =>
    if dx ≤ (x : Int) ∧ (x : Int) < dx + src.width ∧
        dy ≤ (y : Int) ∧ (y : Int) < dy + src.height then
      blend (dest.pix x y) (src.pix ((x : Int) - dx).toNat ((y : Int) - dy).toNat)
    else dest.pix x y⟩

theorem alphaComposite_size (blend : RGBA → RGBA → RGBA) (dest src : Img RGBA)
    (dx dy : Int) (out : Img RGBA)
    (h : alphaComposite blend dest src dx dy = some out) :
    out.width = dest.width ∧ out.height = dest.height ∧ 0 ≤ dx ∧ 0 ≤ dy := by
  unfold alphaComposite at h
  split at h
  · exact absurd h (by simp)
  · rename_i hneg
    cases h
    refine ⟨rfl, rfl, ?_, ?_⟩ <;> omega

/-! ## get_bounds (text_to_image.py:138-191) -/

/-- One ascending Python `for var in range(i, i+fuel)` scan that `break`s at
the first index satisfying `p` (text_to_image.py:156-161 and 171-176):
returns that index, or `none` when the loop runs to completion. -/
def loopFirst (p : Nat → Bool) : Nat → Nat → Option Nat
  | 0, _ => none
  | fuel + 1, i => if p i then some i else loopFirst p fuel (i + 1)

/-- One descending Python `for var in range(n-1, -1, -1)` scan that `break`s
at the first (largest) index satisfying `p` (text_to_image.py:163-169 and
178-184). -/
def loopDown (p : Nat → Bool) : Nat → Option Nat
  | 0 => none
  | n + 1 => if p n then some n else loopDown p n

/-- The value the Python loop variable holds after the ascending scan: the
break index, or the last iterated value (`n-1`; `-1` if the range was
empty). -/
def scanFirst (n : Nat) (p : Nat → Bool) : Int :=
  match loopFirst p n 0 with
  | some c => (c : Int)
  | none => (n : Int) - 1

/-- The value after the descending scan, including the `+= 1` applied on a
break (text_to_image.py:166,181): break index plus one, or the last iterated
value (`0`; `-1` if the range was empty). -/
def scanLastPlus (n : Nat) (p : Nat → Bool) : Int :=
  match loopDown p n with
  | some c => (c : Int) + 1
  | none => if n = 0 then -1 else 0

/-- The degenerate-geometry correction of text_to_image.py:186-189:
`if left > right or left == right: left, right = (0, width)` (and the same,
with `bottom == top` spelled in the other order, for the vertical pair). -/
def correctPair (lo hi : Int) (n : Nat) : Int × Int :=
  if lo > hi ∨ lo = hi then ((0 : Int), (n : Int)) else (lo, hi)

/-- `(pixel == color) is foreground`, the match test of
text_to_image.py:158,165,173,180. -/
def matchCond {α : Type} [DecidableEq α] (img : Img α) (color : α)
    (foreground : Bool) (x y : Nat) : Bool :=
  decide (img.pix x y = color) == foreground

/-- Whether column `x` contains a matching pixel (the inner loop of the
left/right scans). -/
def colHasMatch {α : Type} [DecidableEq α] (img : Img α) (color : α)
    (foreground : Bool) (x : Nat) : Bool :=
  (List.range img.height).any (fun y => matchCond img color foreground x y)

/-- Whether row `y` contains a matching pixel (the inner loop of the
top/bottom scans). -/
def rowHasMatch {α : Type} [DecidableEq α] (img : Img α) (color : α)
    (foreground : Bool) (y : Nat) : Bool :=
  (List.range img.width).any (fun x => matchCond img color foreground x y)

/-- `get_bounds(image, color, foreground)` (text_to_image.py:138-191).
A pixel "matches" when `(pixel == color) is foreground`.  The four edge
scans are followed by the degenerate-geometry correction of lines 186-189. -/
def get_bounds {α : Type} [DecidableEq α] (img : Img α) (color : α)
    (foreground : Bool) : Int × Int × Int × Int :=
  let left := scanFirst img.width (colHasMatch img color foreground)
  let right := scanLastPlus img.width (colHasMatch img color foreground)
  let top := scanFirst img.height (rowHasMatch img color foreground)
  let bottom := scanLastPlus img.height (rowHasMatch img color foreground)
  let lr := correctPair left right img.width
  let tb := correctPair top bottom img.height
  (lr.1, tb.1, lr.2, tb.2)

theorem loopFirst_eq_none (p : Nat → Bool) :
    ∀ fuel i, (∀ j, i ≤ j → j < i + fuel → p j = false) →
      loopFirst p fuel i = none := by
  intro fuel
  induction fuel with
  | zero => intro i _; rfl
  | succ n ih =>
    intro i h
    unfold loopFirst
    rw [h i (by omega) (by omega)]
    simp only [Bool.false_eq_true, if_false]
    exact ih (i + 1) (fun j hj1 hj2 => h j (by omega) (by omega))

theorem loopFirst_none_forall (p : Nat → Bool) :
    ∀ fuel i, loopFirst p fuel i = none →
      ∀ j, i ≤ j → j < i + fuel → p j = false := by
  intro fuel
  induction fuel with
  | zero => intro i _ j hj1 hj2; omega
  | succ n ih =>
    intro i h j hj1 hj2
    unfold loopFirst at h
    by_cases hp : p i
    · simp [hp] at h
    · simp only [hp, Bool.false_eq_true, if_false] at h
      rcases Nat.eq_or_lt_of_le hj1 with rfl | hlt
      · exact Bool.eq_false_iff.mpr hp
      · exact ih (i + 1) h j hlt (by omega)

theorem loopFirst_some (p : Nat → Bool) :
    ∀ fuel i c, loopFirst p fuel i = some c →
      p c = true ∧ i ≤ c ∧ c < i + fuel := by
  intro fuel
  induction fuel with
  | zero => intro i c h; exact absurd h (by simp [loopFirst])
  | succ n ih =>
    intro i c h
    unfold loopFirst at h
    by_cases hp : p i
    · simp only [hp, if_true, Option.some.injEq] at h
      subst h
      exact ⟨hp, Nat.le_refl _, by omega⟩
    · simp only [hp, Bool.false_eq_true, if_false] at h
      obtain ⟨h1, h2, h3⟩ := ih (i + 1) c h
      exact ⟨h1, by omega, by omega⟩

theorem loopDown_none (p : Nat → Bool) :
    ∀ n, (∀ j, j < n → p j = false) → loopDown p n = none := by
  intro n
  induction n with
  | zero => intro _; rfl
  | succ m ih =>
    intro h
    unfold loopDown
    rw [h m (by omega)]
    simp only [Bool.false_eq_true, if_false]
    exact ih (fun j hj => h j (by omega))

theorem loopDown_some (p : Nat → Bool) :
    ∀ n c, loopDown p n = some c →
      p c = true ∧ c < n ∧ ∀ j, c < j → j < n → p j = false := by
  intro n
  induction n with
  | zero => intro c h; exact absurd h (by simp [loopDown])
  | succ m ih =>
    intro c h
    unfold loopDown at h
    by_cases hp : p m
    · simp only [hp, if_true, Option.some.injEq] at h
      subst h
      exact ⟨hp, by omega, fun j hj1 hj2 => by omega⟩
    · simp only [hp, Bool.false_eq_true, if_false] at h
      obtain ⟨h1, h2, h3⟩ := ih c h
      refine ⟨h1, by omega, fun j hj1 hj2 => ?_⟩
      rcases Nat.lt_succ_iff_lt_or_eq.mp hj2 with hlt | rfl
      · exact h3 j hj1 hlt
      · exact Bool.eq_false_iff.mpr hp

theorem loopDown_none_forall (p : Nat → Bool) :
    ∀ n, loopDown p n = none → ∀ j, j < n → p j = false := by
  intro n
  induction n with
  | zero => intro _ j hj; omega
  | succ m ih =>
    intro h j hj
    unfold loopDown at h
    by_cases hp : p m
    · simp [hp] at h
    · simp only [hp, Bool.false_eq_true, if_false] at h
      rcases Nat.lt_succ_iff_lt_or_eq.mp hj with hlt | rfl
      · exact ih h j hlt
      · exact Bool.eq_false_iff.mpr hp

/-- The corrected (lo, hi) pair from one pair of edge scans is always a
non-empty sub-interval of `[0, n]` when `n > 0`. -/
theorem correct_scan_wf (n : Nat) (p : Nat → Bool) (hn : 0 < n) :
    0 ≤ (correctPair (scanFirst n p) (scanLastPlus n p) n).1 ∧
      (correctPair (scanFirst n p) (scanLastPlus n p) n).1 <
        (correctPair (scanFirst n p) (scanLastPlus n p) n).2 ∧
      (correctPair (scanFirst n p) (scanLastPlus n p) n).2 ≤ (n : Int) := by
  rcases hfirst : loopFirst p n 0 with _ | c
  · have hnone : loopDown p n = none :=
      loopDown_none p n (fun j hj => loopFirst_none_forall p n 0 hfirst j
        (by omega) (by omega))
    have hne : n ≠ 0 := by omega
    simp only [correctPair, scanFirst, scanLastPlus, hfirst, hnone, hne, if_false]
    split
    · exact ⟨by omega, by omega, by omega⟩
    · rename_i hguard
      exfalso
      omega
  · obtain ⟨hpc, _, hcn⟩ := loopFirst_some p n 0 c hfirst
    rcases hdown : loopDown p n with _ | d
    · exfalso
      have := loopDown_none_forall p n hdown c (by omega)
      rw [hpc] at this
      exact Bool.true_eq_false.mp this
    · obtain ⟨hpd, hdn, hmax⟩ := loopDown_some p n d hdown
      have hcd : c ≤ d := by
        by_contra hcd
        have := hmax c (by omega) (by omega)
        rw [hpc] at this
        exact Bool.true_eq_false.mp this
      have hguard : ¬(((c : Nat) : Int) > ((d : Nat) : Int) + 1 ∨
          ((c : Nat) : Int) = ((d : Nat) : Int) + 1) := by omega
      simp only [correctPair, scanFirst, scanLastPlus, hfirst, hdown, hguard,
        if_false]
      exact ⟨by omega, by omega, by omega⟩

/-- When no column matches, the corrected horizontal pair is `(0, n)`. -/
theorem correct_scan_empty (n : Nat) (p : Nat → Bool)
    (h : ∀ j, j < n → p j = false) :
    correctPair (scanFirst n p) (scanLastPlus n p) n = (0, (n : Int)) := by
  have hfirst : loopFirst p n 0 = none :=
    loopFirst_eq_none p n 0 (fun j h1 h2 => h j (by omega))
  have hdown : loopDown p n = none := loopDown_none p n h
  simp only [correctPair, scanFirst, scanLastPlus, hfirst, hdown]
  rcases Nat.eq_zero_or_pos n with hn | hn
  · subst hn
    norm_num
  · have hne : n ≠ 0 := by omega
    simp only [hne, if_false]
    split
    · rfl
    · rename_i hguard
      exfalso
      omega

/-- C3: when no pixel of the image matches (here stated for the
`foreground = true` search: no pixel equals `color`), `get_bounds` returns
the full buffer bounds `(0, 0, width, height)`. -/
theorem get_bounds_no_match {α : Type} [DecidableEq α] (img : Img α)
    (color : α)
    (h : ∀ x, x < img.width → ∀ y, y < img.height → img.pix x y ≠ color) :
    get_bounds img color true = (0, 0, (img.width : Int), (img.height : Int)) := by
  have hcond : ∀ x y, x < img.width → y < img.height →
      matchCond img color true x y = false := by
    intro x y hx hy
    simp [matchCond, h x hx y hy]
  have hcol : ∀ x, x < img.width → colHasMatch img color true x = false := by
    intro x hx
    rw [colHasMatch, List.any_eq_false]
    intro y hy
    rw [List.mem_range] at hy
    simp only [hcond x y hx hy, Bool.false_eq_true, not_false_eq_true]
  have hrow : ∀ y, y < img.height → rowHasMatch img color true y = false := by
    intro y hy
    rw [rowHasMatch, List.any_eq_false]
    intro x hx
    rw [List.mem_range] at hx
    simp only [hcond x y hx hy, Bool.false_eq_true, not_false_eq_true]
  show ((correctPair _ _ img.width).1, (correctPair _ _ img.height).1,
    (correctPair _ _ img.width).2, (correctPair _ _ img.height).2) = _
  rw [correct_scan_empty img.width _ hcol, correct_scan_empty img.height _ hrow]

/-- C3 witness: a 2×2 image holding only `(5,5,5,255)`, searched for the
absent color `(1,2,3,4)` with `foreground = true`, yields `(0,0,2,2)`. -/
theorem get_bounds_no_match_witness :
    get_bounds (Img.mk 2 2 (fun _ _ => ((5, 5, 5, 255) : RGBA))) (1, 2, 3, 4) true
      = (0, 0, 2, 2) :=
  get_bounds_no_match _ _ (by decide)

/-- C10: on an image with positive width and height, `get_bounds` always
returns a rectangle with `0 ≤ left < right ≤ width` and
`0 ≤ top < bottom ≤ height`. -/
theorem get_bounds_well_formed {α : Type} [DecidableEq α] (img : Img α)
    (color : α) (foreground : Bool)
    (hw : 0 < img.width) (hh : 0 < img.height) :
    0 ≤ (get_bounds img color foreground).1 ∧
      (get_bounds img color foreground).1 < (get_bounds img color foreground).2.2.1 ∧
      (get_bounds img color foreground).2.2.1 ≤ (img.width : Int) ∧
      0 ≤ (get_bounds img color foreground).2.1 ∧
      (get_bounds img color foreground).2.1 < (get_bounds img color foreground).2.2.2 ∧
      (get_bounds img color foreground).2.2.2 ≤ (img.height : Int) := by
  have hW := correct_scan_wf img.width (colHasMatch img color foreground) hw
  have hH := correct_scan_wf img.height (rowHasMatch img color foreground) hh
  show 0 ≤ ((correctPair _ _ img.width).1, (correctPair _ _ img.height).1,
      (correctPair _ _ img.width).2, (correctPair _ _ img.height).2).1 ∧ _
  exact ⟨hW.1, hW.2.1, hW.2.2, hH.1, hH.2.1, hH.2.2⟩

/-- C10 witness: a 3×2 image with one pixel of color `(9,9,9,9)` at (1,0). -/
theorem get_bounds_well_formed_witness :
    0 ≤ (get_bounds (Img.mk 3 2
        (fun x y => if x = 1 ∧ y = 0 then ((9, 9, 9, 9) : RGBA) else (0, 0, 0, 0)))
        (9, 9, 9, 9) true).1 :=
  (get_bounds_well_formed _ (9, 9, 9, 9) true (by decide) (by decide)).1

/-! ## Font resolution (text_to_image.py:58-136) -/

/-- The `font_types` dictionary of `get_basic_font`
(text_to_image.py:104-118). -/
def font_types (key : String) : Option (List String) :=
  if key = "serif" then
    some ["Garamond", "Georgia", "Baskerville", "Times New Roman",
      "FreeSerif", "DejaVuSerif"]
  else if key = "serif-bold" then
    some ["Georgia Bold", "Times New Roman Bold", "FreeSerifBold",
      "DejaVuSerif-Bold"]
  else if key = "serif-italic" then
    some ["Georgia Italic", "Times New Roman Italic", "FreeSerifItalic",
      "DejaVuSerif-Italic"]
  else if key = "serif-bold-italic" then
    some ["Georgia Bold Italic", "Times New Roman Bold Italic",
      "FreeSerifBoldItalic", "DejaVuSerif-BoldItalic"]
  else if key = "sans-serif" then
    some ["Helvetica", "Arial", "Verdana", "Tahoma", "FreeSans", "DejaVuSans"]
  else if key = "sans-serif-bold" then
    some ["Arial Bold", "Verdana Bold", "Tahoma Bold", "FreeSansBold",
      "DejaVuSans-Bold"]
  else if key = "sans-serif-italic" then
    some ["Arial Italic", "Verdana Italic", "FreeSansOblique",
      "DejaVuSans-Oblique"]
  else if key = "sans-serif-bold-italic" then
    some ["Arial Bold Italic", "Verdana Bold Italic", "FreeSansBoldOblique",
      "DejaVuSans-BoldOblique"]
  else if key = "monospace" then
    some ["Courier", "Courier New", "Lucida", "Monaco", "FreeMono",
      "DejaVu Sans Mono"]
  else if key = "monospace-bold" then
    some ["Courier New Bold", "FreeMonoBold", "DejaVuSansMono-Bold"]
  else if key = "monospace-italic" then
    some ["Courier New Italic", "FreeMonoOblique", "DejaVuSansMono-Oblique"]
  else if key = "monospace-bold-italic" then
    some ["Courier New Bold Italic", "FreeMonoBoldOblique",
      "DejaVuSansMono-BoldOblique"]
  else none

/-- The key assembly of text_to_image.py:120-124: append `-bold` and/or
`-italic` to the style. -/
def font_key_of (font_style : String) (bold italic : Bool) : String :=
  let k := font_style
  let k := if bold then k ++ "-bold" else k
  if italic then k ++ "-italic" else k

/-- `get_font` (text_to_image.py:58-84), over the external collaborators:
`stem` models `re.sub(r"\..+$", "", basename(font))` and `tryLoad` models
`ImageFont.truetype`, which raises `OSError` (here `none`) on a file that
is not a valid font.  A matching file that fails to load is skipped and the
scan continues; `none` overall models Python's `return None`. -/
def get_font {F : Type} (tryLoad : String → Option F) (stem : String → String)
    (font_name : String) : List String → Option F
  | [] => none
  | font :: rest =>
    if stem font = font_name then
      match tryLoad font with
      | some image_font => some image_font
      | none => get_font tryLoad stem font_name rest
    else get_font tryLoad stem font_name rest

/-- The candidate loop of `get_basic_font` (text_to_image.py:127-130):
return the first candidate name that resolves through `get_font`. -/
def find_candidate_font {F : Type} (tryLoad : String → Option F)
    (stem : String → String) (fonts : List String) : List String → Option F
  | [] => none
  | c :: rest =>
    match get_font tryLoad stem c fonts with
    | some image_font => some image_font
    | none => find_candidate_font tryLoad stem fonts rest

/-- `get_basic_font` (text_to_image.py:86-136).  A missing dictionary key
(`KeyError`, caught at line 131) behaves exactly like a candidate list that
resolves nothing, hence the `Option.bind`.  `loadDefault` models
`ImageFont.load_default()`, the built-in Aileron Regular fallback. -/
def get_basic_font {F : Type} (tryLoad : String → Option F)
    (stem : String → String) (loadDefault : F) (font_style : String)
    (fonts : List String) (bold italic : Bool) : F :=
  match (font_types (font_key_of font_style bold italic)).bind
      (fun candidates => find_candidate_font tryLoad stem fonts candidates) with
  | some image_font => image_font
  | none =>
    if bold || italic then
      get_basic_font tryLoad stem loadDefault font_style fonts false false
    else loadDefault
termination_by (if bold || italic then 1 else 0)
decreasing_by simp_all

/-- C9: the fallback structure of `get_basic_font` (which, being a total
function of its inputs, never raises): (a) when a bold and/or italic key's
candidates all fail to resolve, the result is the plain-style call (one
level of recursion — never a bold-only intermediate); (b) when both the
assembled key and the plain style are unknown to the table, the result is
the built-in default font; (c) when the plain style's candidates all fail,
the result is the built-in default font. -/
theorem get_basic_font_fallback {F : Type} (tryLoad : String → Option F)
    (stem : String → String) (loadDefault : F) :
    (∀ font_style fonts bold italic, (bold || italic) = true →
      (font_types (font_key_of font_style bold italic)).bind
        (fun candidates => find_candidate_font tryLoad stem fonts candidates)
          = none →
      get_basic_font tryLoad stem loadDefault font_style fonts bold italic =
        get_basic_font tryLoad stem loadDefault font_style fonts false false) ∧
    (∀ font_style fonts bold italic,
      font_types (font_key_of font_style bold italic) = none →
      font_types font_style = none →
      get_basic_font tryLoad stem loadDefault font_style fonts bold italic =
        loadDefault) ∧
    (∀ font_style fonts,
      (font_types font_style).bind
        (fun candidates => find_candidate_font tryLoad stem fonts candidates)
          = none →
      get_basic_font tryLoad stem loadDefault font_style fonts false false =
        loadDefault) := by
  have hplain : ∀ font_style, font_key_of font_style false false = font_style :=
    fun _ => rfl
  have hc : ∀ font_style fonts,
      (font_types font_style).bind
        (fun candidates => find_candidate_font tryLoad stem fonts candidates)
          = none →
      get_basic_font tryLoad stem loadDefault font_style fonts false false =
        loadDefault := by
    intro font_style fonts hnone
    rw [get_basic_font, hplain, hnone]
    rfl
  refine ⟨?_, ?_, hc⟩
  · intro font_style fonts bold italic hbi hnone
    rw [get_basic_font, hnone, hbi]
    rfl
  · intro font_style fonts bold italic hkey hstyle
    rw [get_basic_font, hkey]
    show (if bold || italic then _ else _) = _
    split
    · exact hc font_style fonts (by rw [hstyle]; rfl)
    · rfl

/-- C9 witness: with a loader that resolves nothing and an empty font list,
bold serif falls back to the plain serif call, and an unknown style yields
the default font. -/
theorem get_basic_font_fallback_witness :
    get_basic_font (fun (_ : String) => (none : Option Nat)) id 0 "serif" []
        true false =
      get_basic_font (fun (_ : String) => (none : Option Nat)) id 0 "serif" []
        false false ∧
    get_basic_font (fun (_ : String) => (none : Option Nat)) id 0 "cursive" []
        false true = 0 ∧
    get_basic_font (fun (_ : String) => (none : Option Nat)) id 0 "serif" []
      false false = 0 := by
  refine ⟨(get_basic_font_fallback _ _ _).1 "serif" [] true false rfl (by rfl),
    (get_basic_font_fallback _ _ _).2.1 "cursive" [] false true (by rfl) (by rfl),
    (get_basic_font_fallback _ _ _).2.2 "serif" [] (by rfl)⟩

/-! ## get_word_wrap (text_to_image.py:289-334) -/

/-- Character-level scan extracting the maximal whitespace-free runs:
`cur` accumulates the current word in reverse. -/
def words_aux (cur : List Char) : List Char → List String
  | [] => if cur = [] then [] else [String.mk cur.reverse]
  | c :: cs =>
    if c.isWhitespace then
      if cur = [] then words_aux [] cs
      else String.mk cur.reverse :: words_aux [] cs
    else words_aux (c :: cur) cs

/-- The word list of text_to_image.py:307 before the all-whitespace patch:
`re.sub(r"\s+", " ", text).strip().split(" ")` for text containing at least
one non-whitespace character — the collapse-strip-split pipeline yields
exactly the maximal whitespace-free runs. -/
def split_words (text : String) : List String :=
  words_aux [] text.data

/-- The full word list of text_to_image.py:307: for all-whitespace input
Python's `"".split(" ")` yields `[""]`. -/
def normalized_words (text : String) : List String :=
  let ws := split_words text
  if ws = [] then [""] else ws

/-- text_to_image.py:308-309: `len(words[0])` after sorting by length in
descending order, i.e. the maximum word length. -/
def longest_word_length (text : String) : Nat :=
  ((normalized_words text).map String.length).foldl max 0

/-- text_to_image.py:309-312: the wrap width — the longest word length,
raised to `minimum_characters` when smaller. -/
def characters_of (text : String) (minimum_characters : Int) : Int :=
  if (longest_word_length text : Int) < minimum_characters then minimum_characters
  else (longest_word_length text : Int)

/-- Greedy line accumulation of `textwrap.wrap(..., break_long_words=False)`:
extend the current line by a space and the next word while the result fits
in `width`; a word is never split, so a line starts with its first word
regardless of length.  (Faithful to `textwrap` for text whose words are
separated by single spaces and contain no hyphens.) -/
def wrapAux (width : Nat) (cur : String) : List String → List String
  | [] => [cur]
  | w :: ws =>
    if cur.length + 1 + w.length ≤ width then wrapAux width (cur ++ " " ++ w) ws
    else cur :: wrapAux width w ws

/-- `textwrap.wrap(text.strip(), width=..., break_long_words=False)`
(text_to_image.py:314) on the word list; empty input produces no lines. -/
def wrapWords (width : Nat) : List String → List String
  | [] => []
  | w :: ws => wrapAux width w ws

/-- Line measurement of text_to_image.py:322-324 and 330-331:
`ref_left, a, ref_right, b = font.getbbox(line)`;
width `= (ref_right + 1) - ref_left`.  `bbox` is the opaque FreeType
measurement, taking the font size of the `font_variant` call. -/
def measure_width (bbox : Int → String → Int × Int × Int × Int)
    (font_size : Int) (line : String) : Int :=
  let r := bbox font_size line
  (r.2.2.1 + 1) - r.1

/-- text_to_image.py:316: the conservative starting size
`math.floor(image_width / (characters * 2))`. -/
def conservative_size (text : String) (image_width : Int)
    (minimum_characters : Int) : Int :=
  image_width / (characters_of text minimum_characters * 2)

/-- The wrapped lines of text_to_image.py:314. -/
def ww_lines (text : String) (minimum_characters : Int) : List String :=
  wrapWords (characters_of text minimum_characters).toNat (split_words text)

/-- The widest-line selection loop of text_to_image.py:318-325: fold over
the lines, keeping the first line of strictly largest measured width,
starting from `(0, "")`. -/
def widest_measured (bbox : Int → String → Int × Int × Int × Int)
    (font_size : Int) (lines : List String) : Int × String :=
  lines.foldl
    (fun st line =>
      if measure_width bbox font_size line > st.1 then
        (measure_width bbox font_size line, line)
      else st)
    (0, "")

/-- The (line_width, largest_line) state entering the upward search loop. -/
def ww_start_state (bbox : Int → String → Int × Int × Int × Int)
    (text : String) (image_width minimum_characters : Int) : Int × String :=
  widest_measured bbox (conservative_size text image_width minimum_characters)
    (ww_lines text minimum_characters)

/-- The upward font-size search of text_to_image.py:327-331:
`while line_width < image_width: font_size += 1; re-measure largest_line`.
The loop is unbounded, hence the fuel; `none` means the loop has not exited
within `fuel` iterations. -/
def sizeLoop (bbox : Int → String → Int × Int × Int × Int)
    (image_width : Int) (largest_line : String) :
    Nat → Int → Int → Option Int
  | 0, _, _ => none
  | fuel + 1, font_size, line_width =>
    if line_width < image_width then
      sizeLoop bbox image_width largest_line fuel (font_size + 1)
        (measure_width bbox (font_size + 1) largest_line)
    else some font_size

/-- `get_word_wrap(text, font, image_width, minimum_characters)`
(text_to_image.py:289-334).  `none` arises when `textwrap.wrap` would raise
(`width <= 0`, possible only for all-whitespace text with a non-positive
minimum) or when the search loop has not terminated within `fuel`
iterations.  On success the returned size is the exit size minus one
(line 332). -/
def get_word_wrap (fuel : Nat) (bbox : Int → String → Int × Int × Int × Int)
    (text : String) (image_width minimum_characters : Int) :
    Option (List String × Int) :=
  if characters_of text minimum_characters ≤ 0 then none
  else
    match sizeLoop bbox image_width
        (ww_start_state bbox text image_width minimum_characters).2 fuel
        (conservative_size text image_width minimum_characters)
        (ww_start_state bbox text image_width minimum_characters).1 with
    | none => none
    | some font_size => some (ww_lines text minimum_characters, font_size - 1)

/-- Exit characterisation of the upward search loop: on success the loop
either exited immediately (entry width already ≥ `image_width`), or it
stepped at least once, the exit size measures ≥ `image_width`, and every
strictly intermediate size measured < `image_width`. -/
theorem sizeLoop_spec (bbox : Int → String → Int × Int × Int × Int)
    (image_width : Int) (largest_line : String) :
    ∀ fuel (font_size line_width fe : Int),
      sizeLoop bbox image_width largest_line fuel font_size line_width = some fe →
      (image_width ≤ line_width ∧ fe = font_size) ∨
      (line_width < image_width ∧ font_size < fe ∧
        image_width ≤ measure_width bbox fe largest_line ∧
        ∀ j, font_size < j → j < fe →
          measure_width bbox j largest_line < image_width) := by
  intro fuel
  induction fuel with
  | zero => intro fs lw fe h; exact absurd h (by simp [sizeLoop])
  | succ n ih =>
    intro fs lw fe h
    unfold sizeLoop at h
    by_cases hlt : lw < image_width
    · simp only [hlt, if_true] at h
      rcases ih (fs + 1) (measure_width bbox (fs + 1) largest_line) fe h with
        ⟨h1, h2⟩ | ⟨h1, h2, h3, h4⟩
      · subst h2
        exact Or.inr ⟨hlt, by omega, h1, fun j hj1 hj2 => by omega⟩
      · refine Or.inr ⟨hlt, by omega, h3, fun j hj1 hj2 => ?_⟩
        rcases eq_or_lt_of_le (by omega : fs + 1 ≤ j) with rfl | hgt
        · exact h1
        · exact h4 j hgt hj2
    · simp only [hlt, if_false, Option.some.injEq] at h
      exact Or.inl ⟨by omega, h.symm⟩

/-- C1 (amended): whenever `get_word_wrap` returns, the widest-line state
entering the search is consistently measured, and that initial measurement
is strictly below `image_width` (i.e. the loop runs at least once), the
returned size `s` satisfies: the tracked line measures `< image_width` at
`s` and `≥ image_width` at `s + 1`. -/
theorem get_word_wrap_font_size_maximal (fuel : Nat)
    (bbox : Int → String → Int × Int × Int × Int) (text : String)
    (image_width minimum_characters : Int) (lines : List String) (s : Int)
    (hww : get_word_wrap fuel bbox text image_width minimum_characters =
      some (lines, s))
    (hpick : (ww_start_state bbox text image_width minimum_characters).1 =
      measure_width bbox (conservative_size text image_width minimum_characters)
        (ww_start_state bbox text image_width minimum_characters).2)
    (hstart : (ww_start_state bbox text image_width minimum_characters).1 <
      image_width) :
    measure_width bbox s
        (ww_start_state bbox text image_width minimum_characters).2 <
      image_width ∧
    image_width ≤ measure_width bbox (s + 1)
      (ww_start_state bbox text image_width minimum_characters).2 := by
  unfold get_word_wrap at hww
  split at hww
  · exact absurd hww (by simp)
  · rcases hm : sizeLoop bbox image_width
        (ww_start_state bbox text image_width minimum_characters).2 fuel
        (conservative_size text image_width minimum_characters)
        (ww_start_state bbox text image_width minimum_characters).1 with _ | fe
    · rw [hm] at hww
      exact absurd hww (by simp)
    · rw [hm] at hww
      simp only [Option.some.injEq, Prod.mk.injEq] at hww
      obtain ⟨-, hs⟩ := hww
      rcases sizeLoop_spec bbox image_width _ fuel _ _ fe hm with
        ⟨h1, -⟩ | ⟨-, h2, h3, h4⟩
      · omega
      · have hs1 : s + 1 = fe := by omega
        refine ⟨?_, by rw [hs1]; exact h3⟩
        rcases eq_or_lt_of_le
            (by omega : conservative_size text image_width minimum_characters ≤ s)
          with heq | hlt
        · rw [← heq, ← hpick]
          exact hstart
        · exact h4 s hlt (by omega)

/-- An abstract font measure that is ten pixels per size unit for every
line. -/
def bbox_fast (font_size : Int) (_line : String) : Int × Int × Int × Int :=
  (0, 0, 10 * font_size - 1, 0)

/-- C1 counterexample: with the `bbox_fast` measure, text `"ab"`,
`image_width = 40` and `minimum_characters = 2`, the conservative starting
size 10 already overflows, the loop body never runs, and `get_word_wrap`
returns size 9 — at which the (only, hence widest) line still measures
90 ≥ 40, so the returned size is not one whose widest line fits. -/
theorem get_word_wrap_font_size_cex :
    get_word_wrap 5 bbox_fast "ab" 40 2 = some (["ab"], 9) ∧
    ¬ measure_width bbox_fast 9 "ab" < 40 := by
  constructor
  · rfl
  · decide

/-- An abstract font measure of `size + 1` pixels for every line. -/
def bbox_lin (font_size : Int) (_line : String) : Int × Int × Int × Int :=
  (0, 0, font_size, 0)

/-- C1 witness: with the slow-growing `bbox_lin` measure the amended
statement is non-vacuous: `get_word_wrap` returns 38, which measures
39 < 40, while 39 measures 40 ≥ 40. -/
theorem get_word_wrap_font_size_maximal_witness :
    measure_width bbox_lin 38 (ww_start_state bbox_lin "ab" 40 2).2 < 40 ∧
    (40 : Int) ≤ measure_width bbox_lin (38 + 1) (ww_start_state bbox_lin "ab" 40 2).2 :=
  get_word_wrap_font_size_maximal 40 bbox_lin "ab" 40 2 ["ab"] 38
    (by rfl) (by rfl) (by decide)

/-- C4 (amended): the upward search loop terminates when the tracked line's
measured width is monotone in the size and reaches `image_width` at some
size `k` steps above the start; fuel `k + 2` suffices. -/
theorem sizeLoop_terminates (bbox : Int → String → Int × Int × Int × Int)
    (image_width : Int) (largest_line : String)
    (hmono : ∀ s t : Int, s ≤ t →
      measure_width bbox s largest_line ≤ measure_width bbox t largest_line) :
    ∀ (k : Nat) (font_size : Int),
      image_width ≤ measure_width bbox (font_size + (k : Int)) largest_line →
      ∀ line_width, ∃ fe,
        sizeLoop bbox image_width largest_line (k + 2) font_size line_width
          = some fe := by
  intro k
  induction k with
  | zero =>
    intro fs hreach lw
    by_cases hlt : lw < image_width
    · refine ⟨fs + 1, ?_⟩
      have hge : ¬ measure_width bbox (fs + 1) largest_line < image_width := by
        have h1 := hmono fs (fs + 1) (by omega)
        have h2 : image_width ≤ measure_width bbox fs largest_line := by
          simpa using hreach
        omega
      unfold sizeLoop
      simp only [hlt, if_true]
      unfold sizeLoop
      simp only [hge, if_false]
    · exact ⟨fs, by unfold sizeLoop; simp only [hlt, if_false]⟩
  | succ n ih =>
    intro fs hreach lw
    by_cases hlt : lw < image_width
    · have hreach1 : image_width ≤
          measure_width bbox ((fs + 1) + (n : Int)) largest_line := by
        have : (fs + 1) + (n : Int) = fs + ((n : Int) + 1) := by ring
        rw [this]
        calc image_width ≤ measure_width bbox (fs + ((n + 1 : Nat) : Int))
              largest_line := hreach
          _ ≤ _ := by
              apply hmono
              push_cast
              omega
      obtain ⟨fe, hfe⟩ :=
        ih (fs + 1) hreach1 (measure_width bbox (fs + 1) largest_line)
      refine ⟨fe, ?_⟩
      show sizeLoop bbox image_width largest_line (n + 2 + 1) fs lw = some fe
      unfold sizeLoop
      simp only [hlt, if_true]
      exact hfe
    · exact ⟨fs, by unfold sizeLoop; simp only [hlt, if_false]⟩

/-- C4 (amended, lifted): `get_word_wrap` terminates (returns `some`) when
the wrap width is positive and the tracked line's measure is monotone and
reaches `image_width` at some size above the conservative start;
monotonicity alone is not sufficient (see the counterexample). -/
theorem get_word_wrap_terminates (bbox : Int → String → Int × Int × Int × Int)
    (text : String) (image_width minimum_characters : Int)
    (hch : 0 < characters_of text minimum_characters)
    (hmono : ∀ s t : Int, s ≤ t →
      measure_width bbox s
          (ww_start_state bbox text image_width minimum_characters).2 ≤
        measure_width bbox t
          (ww_start_state bbox text image_width minimum_characters).2)
    (k : Nat)
    (hreach : image_width ≤ measure_width bbox
      (conservative_size text image_width minimum_characters + (k : Int))
      (ww_start_state bbox text image_width minimum_characters).2) :
    ∃ fuel out,
      get_word_wrap fuel bbox text image_width minimum_characters = some out := by
  obtain ⟨fe, hfe⟩ := sizeLoop_terminates bbox image_width
    (ww_start_state bbox text image_width minimum_characters).2 hmono k
    (conservative_size text image_width minimum_characters) hreach
    (ww_start_state bbox text image_width minimum_characters).1
  refine ⟨k + 2, (ww_lines text minimum_characters, fe - 1), ?_⟩
  unfold get_word_wrap
  have hguard : ¬ characters_of text minimum_characters ≤ 0 := by omega
  simp only [hguard, if_false]
  rw [hfe]

/-- An abstract font measure that is constant: every line measures one
pixel at every size, exactly what PIL's `getbbox` yields for the empty
string (`(0,0,0,0)`, so `(right+1)-left = 1`).  This arises in the code for
all-whitespace text, whose wrapped line list is empty and whose tracked
`largest_line` is the initial `""`. -/
def bbox_const (_font_size : Int) (_line : String) : Int × Int × Int × Int :=
  (0, 0, 0, 0)

theorem sizeLoop_const_none :
    ∀ (fuel : Nat) (fs lw : Int), lw < 2 →
      sizeLoop bbox_const 2 "" fuel fs lw = none := by
  intro fuel
  induction fuel with
  | zero => intro fs lw _; rfl
  | succ n ih =>
    intro fs lw hlw
    unfold sizeLoop
    simp only [hlw, if_true]
    exact ih (fs + 1) (measure_width bbox_const (fs + 1) "")
      (by simp [measure_width, bbox_const])

/-- C4 counterexample: for the all-whitespace text `" "` with
`minimum_characters = 1` and `image_width = 2`, under the constant measure
`bbox_const` (monotonically non-decreasing in the font size, and exactly
PIL's measure of the empty tracked line), the upward search loop never
exits: `get_word_wrap` returns `some` for no amount of fuel.  Monotonicity
of the measure therefore does not make the loop terminate. -/
theorem get_word_wrap_nontermination_cex :
    ¬ ∃ (fuel : Nat), ∃ out, get_word_wrap fuel bbox_const " " 2 1 = some out := by
  rintro ⟨fuel, out, h⟩
  unfold get_word_wrap at h
  have hch : characters_of " " 1 = 1 := by decide
  rw [hch] at h
  simp only [(by decide : ¬ (1 : Int) ≤ 0), if_false] at h
  have hst : ww_start_state bbox_const " " 2 1 = (0, "") := by decide
  have hcs : conservative_size " " 2 1 = 1 := by decide
  rw [hst, hcs, sizeLoop_const_none fuel 1 0 (by decide)] at h
  exact absurd h (by simp)

/-- C4 witness: with the strictly growing `bbox_lin` measure, text `"ab"`,
width 10 and minimum 2, the loop (and hence `get_word_wrap`) terminates. -/
theorem get_word_wrap_terminates_witness :
    ∃ fuel out, get_word_wrap fuel bbox_lin "ab" 10 2 = some out :=
  get_word_wrap_terminates bbox_lin "ab" 10 2 (by decide)
    (fun s t hst => by simp only [measure_width, bbox_lin]; omega)
    8 (by decide)

theorem foldl_max_le_init : ∀ (l : List Nat) (init : Nat),
    init ≤ l.foldl max init := by
  intro l
  induction l with
  | nil => intro init; exact Nat.le_refl _
  | cons x xs ih =>
    intro init
    calc init ≤ max init x := Nat.le_max_left _ _
      _ ≤ _ := ih (max init x)

theorem mem_le_foldl_max : ∀ (l : List Nat) (init a : Nat), a ∈ l →
    a ≤ l.foldl max init := by
  intro l
  induction l with
  | nil => intro init a ha; exact absurd ha (by simp)
  | cons x xs ih =>
    intro init a ha
    rcases List.mem_cons.mp ha with rfl | hmem
    · calc a ≤ max init a := Nat.le_max_right _ _
        _ ≤ _ := foldl_max_le_init xs (max init a)
    · exact ih (max init x) a hmem

/-- Every word of the split text is at most the longest word length. -/
theorem split_words_le_longest (text : String) :
    ∀ w ∈ split_words text, w.length ≤ longest_word_length text := by
  intro w hw
  have hne : split_words text ≠ [] := by
    intro hnil
    rw [hnil] at hw
    exact absurd hw (by simp)
  unfold longest_word_length normalized_words
  simp only [hne, if_false]
  exact mem_le_foldl_max _ 0 w.length (List.mem_map_of_mem String.length hw)

theorem wrapAux_length_le (width : Nat) :
    ∀ (ws : List String) (cur : String), cur.length ≤ width →
      (∀ w ∈ ws, w.length ≤ width) →
      ∀ line ∈ wrapAux width cur ws, line.length ≤ width := by
  intro ws
  induction ws with
  | nil =>
    intro cur hcur _ line hline
    unfold wrapAux at hline
    rcases List.mem_singleton.mp hline with rfl
    exact hcur
  | cons w ws ih =>
    intro cur hcur hws line hline
    unfold wrapAux at hline
    by_cases hfit : cur.length + 1 + w.length ≤ width
    · simp only [hfit, if_true] at hline
      refine ih (cur ++ " " ++ w) ?_ (fun v hv => hws v (by simp [hv])) line hline
      simp only [String.length_append]
      simpa using hfit
    · simp only [hfit, if_false] at hline
      rcases List.mem_cons.mp hline with rfl | hmem
      · exact hcur
      · exact ih w (hws w (by simp)) (fun v hv => hws v (by simp [hv])) line hmem

theorem wrapWords_length_le (width : Nat) (ws : List String)
    (hws : ∀ w ∈ ws, w.length ≤ width) :
    ∀ line ∈ wrapWords width ws, line.length ≤ width := by
  cases ws with
  | nil => intro line hline; exact absurd hline (by simp [wrapWords])
  | cons w ws =>
    exact wrapAux_length_le width ws w (hws w (by simp))
      (fun v hv => hws v (by simp [hv]))

/-- C5 (amended): every line produced by `get_word_wrap` has character
count at most `max(minimum_characters, longest word length)` — the wrap
width is an upper bound on line length, not a lower bound. -/
theorem get_word_wrap_line_length (fuel : Nat)
    (bbox : Int → String → Int × Int × Int × Int) (text : String)
    (image_width minimum_characters : Int) (lines : List String) (s : Int)
    (h : get_word_wrap fuel bbox text image_width minimum_characters =
      some (lines, s)) :
    ∀ line ∈ lines,
      (line.length : Int) ≤ characters_of text minimum_characters := by
  have hch : ¬ characters_of text minimum_characters ≤ 0 := by
    intro hle
    unfold get_word_wrap at h
    simp only [hle, if_true] at h
    exact Option.noConfusion h
  have hlines : lines = ww_lines text minimum_characters := by
    unfold get_word_wrap at h
    simp only [hch, if_false] at h
    rcases hm : sizeLoop bbox image_width
        (ww_start_state bbox text image_width minimum_characters).2 fuel
        (conservative_size text image_width minimum_characters)
        (ww_start_state bbox text image_width minimum_characters).1 with _ | fe
    · rw [hm] at h
      exact absurd h (by simp)
    · rw [hm] at h
      simp only [Option.some.injEq, Prod.mk.injEq] at h
      exact h.1.symm
  subst hlines
  intro line hline
  have hwords : ∀ w ∈ split_words text,
      w.length ≤ (characters_of text minimum_characters).toNat := by
    intro w hw
    have h1 := split_words_le_longest text w hw
    have h2 : (longest_word_length text : Int) ≤
        characters_of text minimum_characters := by
      unfold characters_of
      split
      · omega
      · omega
    omega
  have := wrapWords_length_le (characters_of text minimum_characters).toNat
    (split_words text) hwords line hline
  omega

/-- C5 counterexample: for text `"aa aa aa"` with `minimum_characters = 5`
(and the `bbox_lin` measure, `image_width = 40`), `get_word_wrap` produces
the line `"aa"` of length 2 < 5, although the longest word (length 2) does
not exceed the minimum — the wrap width is a maximum, not a minimum. -/
theorem get_word_wrap_short_line_cex :
    get_word_wrap 50 bbox_lin "aa aa aa" 40 5 = some (["aa aa", "aa"], 38) ∧
    ("aa" : String).length < 5 ∧ longest_word_length "aa aa aa" ≤ 5 := by
  refine ⟨by rfl, by decide, by decide⟩

/-- C5 witness: the amended bound applied to the same run: the short line
`"aa"` is still within the wrap width 5. -/
theorem get_word_wrap_line_length_witness :
    (("aa" : String).length : Int) ≤ characters_of "aa aa aa" 5 :=
  get_word_wrap_line_length 50 bbox_lin "aa aa aa" 40 5 ["aa aa", "aa"] 38
    (by rfl) "aa" (by decide)

/-! ## Line and multiline rendering (text_to_image.py:193-287) -/

/-- Exact rational arithmetic for the Python float expressions built from
`space` and `0.9` (whose values are exact decimals).  Numerator/denominator
pairs are kept unnormalised (denominators positive by construction), so the
kernel can evaluate concrete instances. -/
structure Frac where
  num : Int
  den : Int

def Frac.ofInt (n : Int) : Frac := ⟨n, 1⟩

def Frac.mul (a b : Frac) : Frac := ⟨a.num * b.num, a.den * b.den⟩

def Frac.add (a b : Frac) : Frac := ⟨a.num * b.den + b.num * a.den, a.den * b.den⟩

/-- `math.floor` of a fraction with positive denominator. -/
def Frac.floor (a : Frac) : Int := a.num / a.den

/-- `a > b` for fractions with positive denominators. -/
abbrev Frac.Gt (a b : Frac) : Prop := b.num * a.den < a.num * b.den

/-- The fixed reference glyph string (text_to_image.py:12). -/
def TEXT_REF : String :=
  "ÅBCDÉFGHIJKLMNÖPQRSTÜVWXYZ1234567890abcdefghijklmnopqrstuvwxyz"

/-- The opaque raster collaborators: `draw` models
`ImageDraw.Draw(image).text(xy, text, fill, font)` as a transformation of
the pixel function (drawing cannot change the buffer size), taking the
destination offset, the text, the fill color and the font size; `blend`
models PIL's per-pixel alpha compositing. -/
structure PILEnv where
  draw : (Nat → Nat → RGBA) → Int × Int → String → RGBA → Int → Nat → Nat → RGBA
  blend : RGBA → RGBA → RGBA

/-- The output height computed at text_to_image.py:226-232:
`ref_bottom` is incremented once, then
`image_height = math.floor((ref_bottom - ref_top) * space)` from the
reference glyph string's bounding box — independent of the rendered text. -/
def line_image_height (bbox : Int → String → Int × Int × Int × Int)
    (font_size : Int) (space : Frac) : Int :=
  let r := bbox font_size TEXT_REF
  Frac.floor (Frac.mul (Frac.ofInt ((r.2.2.2 + 1) - r.2.1)) space)

/-- text_to_image.py:223-224: drawing the text at `(1,1)` onto the scratch
buffer mutates its pixels but not its size. -/
def draw_scratch (env : PILEnv) (scratch : Img RGBA) (text : String)
    (foreground : RGBA) (font_size : Int) : Img RGBA :=
  ⟨scratch.width, scratch.height,
    env.draw scratch.pix (1, 1) text foreground font_size⟩

/-- text_to_image.py:223-230: draw the text, find the ink bounds against
the transparent scratch color, crop horizontally to the ink extent and
vertically to the reference ascent/descent (`ref_bottom` incremented
once). -/
def line_crop (env : PILEnv) (bbox : Int → String → Int × Int × Int × Int)
    (text : String) (font_size : Int) (foreground : RGBA)
    (scratch : Img RGBA) : Option (Img RGBA) :=
  let image := draw_scratch env scratch text foreground font_size
  let r := bbox font_size TEXT_REF
  let b := get_bounds image ((0, 0, 0, 0) : RGBA) false
  cropImg image b.1 r.2.1 (b.2.2.1 + 1) (r.2.2.2 + 1)

/-- text_to_image.py:233-246: allocate the `image_width × image_height`
background and paste the cropped glyph image per `justified` with a
one-pixel inset (`x` can be negative for wide content, in which case PIL's
`alpha_composite` raises — modelled as `none`). -/
def line_paste (env : PILEnv) (image_width hgt : Int) (background : RGBA)
    (justified : String) (image : Img RGBA) : Option (Img RGBA) :=
  match imageNew image_width hgt background with
  | none => none
  | some bg =>
    let text_width : Int := image.width
    let x : Int :=
      if justified = "l" then 1
      else if justified = "r" then image_width - (1 + text_width)
      else (image_width - text_width) / 2
    alphaComposite env.blend bg image x 1

/-- `get_text_line_image` (text_to_image.py:193-246).  Color arguments are
the parsed RGBA tuples of the hex color strings.  `none` models the
`ValueError` that `alpha_composite` raises when the computed paste offset
is negative — which happens exactly when the cropped glyph image is too
wide for `image_width` (in particular whenever nothing was inked, since the
crop then falls back to the full double-width scratch bounds). -/
def get_text_line_image (env : PILEnv)
    (bbox : Int → String → Int × Int × Int × Int) (text : String)
    (font_size image_width : Int) (foreground background : RGBA)
    (space : Frac) (justified : String) : Option (Img RGBA) :=
  match imageNew (image_width * 2) (font_size * 4) (0, 0, 0, 0) with
  | none => none
  | some scratch =>
    match line_crop env bbox text font_size foreground scratch with
    | none => none
    | some cropped =>
      line_paste env image_width (line_image_height bbox font_size space)
        background justified cropped

/-- The per-line loop of `get_text_multiline_image`
(text_to_image.py:280-286): each line is rendered with a transparent
background and pasted at `(0, i * image_height)`. -/
def multiline_compose (env : PILEnv)
    (bbox : Int → String → Int × Int × Int × Int)
    (font_size image_width : Int) (foreground : RGBA) (space : Frac)
    (justified : String) (image_height : Nat) :
    List String → Nat → Img RGBA → Option (Img RGBA)
  | [], _, bg => some bg
  | line :: rest, i, bg =>
    match get_text_line_image env bbox line font_size image_width foreground
        (0, 0, 0, 0) space justified with
    | none => none
    | some image =>
      match alphaComposite env.blend bg image 0 ((i : Int) * image_height) with
      | none => none
      | some bg2 =>
        multiline_compose env bbox font_size image_width foreground space
          justified image_height rest (i + 1) bg2

/-- `get_text_multiline_image` (text_to_image.py:248-287): one reference
line (`"abc"`, width 100, defaults) fixes the per-line height; the base
buffer is `image_width × (height * len(lines))`. -/
def get_text_multiline_image (env : PILEnv)
    (bbox : Int → String → Int × Int × Int × Int) (lines : List String)
    (font_size image_width : Int) (foreground background : RGBA)
    (space : Frac) (justified : String) : Option (Img RGBA) :=
  match get_text_line_image env bbox "abc" font_size 100 (0, 0, 0, 255)
      (255, 255, 255, 0) space "c" with
  | none => none
  | some ref_image =>
    match imageNew image_width ((ref_image.height : Int) * lines.length)
        background with
    | none => none
    | some bg =>
      multiline_compose env bbox font_size image_width foreground space
        justified ref_image.height lines 0 bg

theorem line_paste_size (env : PILEnv) (image_width hgt : Int)
    (background : RGBA) (justified : String) (image img : Img RGBA)
    (h : line_paste env image_width hgt background justified image = some img) :
    img.width = image_width.toNat ∧ img.height = hgt.toNat := by
  unfold line_paste at h
  split at h
  · exact Option.noConfusion h
  · rename_i bg hbg
    dsimp only at h
    obtain ⟨hw, hh, -, -⟩ := alphaComposite_size _ _ _ _ _ _ h
    unfold imageNew at hbg
    split at hbg
    · exact Option.noConfusion hbg
    · simp only [Option.some.injEq] at hbg
      subst hbg
      exact ⟨hw, hh⟩

theorem get_text_line_image_size (env : PILEnv)
    (bbox : Int → String → Int × Int × Int × Int) (text : String)
    (font_size image_width : Int) (foreground background : RGBA)
    (space : Frac) (justified : String) (img : Img RGBA)
    (h : get_text_line_image env bbox text font_size image_width foreground
      background space justified = some img) :
    img.width = image_width.toNat ∧
      img.height = (line_image_height bbox font_size space).toNat := by
  unfold get_text_line_image at h
  split at h
  · exact Option.noConfusion h
  · split at h
    · exact Option.noConfusion h
    · exact line_paste_size _ _ _ _ _ _ _ h

/-- C6 (amended): whenever two calls of `get_text_line_image` with the same
font measure, font size and spacing both return an image (for any texts,
colors and justifications), the two output heights are equal, namely
`floor(referenceHeight * space)` (clamped to zero), and the width is the
requested `image_width`.  When the cropped ink is too wide for the target
(e.g. a text that inks nothing, making the crop fall back to the
double-width scratch bounds), the call raises instead of returning. -/
theorem get_text_line_image_height_spec (env : PILEnv)
    (bbox : Int → String → Int × Int × Int × Int)
    (font_size image_width : Int) (fg1 fg2 bg1 bg2 : RGBA) (space : Frac)
    (j1 j2 t1 t2 : String) (i1 i2 : Img RGBA)
    (h1 : get_text_line_image env bbox t1 font_size image_width fg1 bg1
      space j1 = some i1)
    (h2 : get_text_line_image env bbox t2 font_size image_width fg2 bg2
      space j2 = some i2) :
    i1.height = i2.height ∧
      i1.height = (line_image_height bbox font_size space).toNat ∧
      i1.width = image_width.toNat := by
  obtain ⟨hw1, hh1⟩ := get_text_line_image_size _ _ _ _ _ _ _ _ _ _ h1
  obtain ⟨hw2, hh2⟩ := get_text_line_image_size _ _ _ _ _ _ _ _ _ _ h2
  exact ⟨by rw [hh1, hh2], hh1, hw1⟩

/-- A renderer that inks the single pixel (1,1) for the texts `"a"` and
`"b"` and nothing for any other text, with overwrite blending. -/
def env_pt : PILEnv :=
  ⟨fun old _ text fill _ x y =>
      if (text = "a" ∨ text = "b") ∧ x = 1 ∧ y = 1 then fill else old x y,
    fun _ s => s⟩

/-- A square font measure: every string's bounding box at size `s` is
`(0, 0, s, s)`. -/
def bbox_sq (font_size : Int) (_line : String) : Int × Int × Int × Int :=
  (0, 0, font_size, font_size)

/-- C6 counterexample: with the same font measure, size, width and spacing,
the text `"a"` yields an image of height 3 while the empty text `""` (which
inks nothing, so the ink crop falls back to the double-width scratch
bounds and the centering offset goes negative) raises `ValueError` instead
of returning an image — so the output height is not a function of
(font, size, spacing) alone across all texts. -/
theorem get_text_line_image_height_cex :
    (get_text_line_image env_pt bbox_sq "a" 2 4 (0, 0, 0, 255)
        (255, 255, 255, 0) ⟨1, 1⟩ "c").map Img.height = some 3 ∧
    (get_text_line_image env_pt bbox_sq "" 2 4 (0, 0, 0, 255)
        (255, 255, 255, 0) ⟨1, 1⟩ "c").map Img.height = none := by
  exact ⟨rfl, rfl⟩

/-- C6 witness: two different texts that both return, with equal heights. -/
theorem get_text_line_image_height_spec_witness :
    ∃ i1 i2,
      get_text_line_image env_pt bbox_sq "a" 2 4 (0, 0, 0, 255)
          (255, 255, 255, 0) ⟨1, 1⟩ "c" = some i1 ∧
      get_text_line_image env_pt bbox_sq "b" 2 4 (0, 0, 0, 255)
          (255, 255, 255, 0) ⟨1, 1⟩ "c" = some i2 ∧
      i1.height = i2.height := by
  have hA : (get_text_line_image env_pt bbox_sq "a" 2 4 (0, 0, 0, 255)
      (255, 255, 255, 0) ⟨1, 1⟩ "c").isSome = true := by rfl
  have hB : (get_text_line_image env_pt bbox_sq "b" 2 4 (0, 0, 0, 255)
      (255, 255, 255, 0) ⟨1, 1⟩ "c").isSome = true := by rfl
  obtain ⟨i1, h1⟩ := Option.isSome_iff_exists.mp hA
  obtain ⟨i2, h2⟩ := Option.isSome_iff_exists.mp hB
  exact ⟨i1, i2, h1, h2,
    (get_text_line_image_height_spec env_pt bbox_sq 2 4 _ _ _ _ ⟨1, 1⟩
      "c" "c" "a" "b" i1 i2 h1 h2).1⟩

/-! ## text_image_fit_box (text_to_image.py:379-448) -/

/-- The inner font-size loop of `text_image_fit_box`
(text_to_image.py:422-429): while the estimated height exceeds the box and
the size is above the lower bound (or there is a single line), decrement
the size and re-estimate
`calc_height = line_height + (len(lines)-1) * line_height * space` from the
reference glyph string.  Fuel-modelled: the loop is unbounded when
`len(lines) == 1`. -/
def fit_inner (bbox : Int → String → Int × Int × Int × Int) (space : Frac)
    (image_height : Int) (lines_len : Nat) (low_font_size : Int) :
    Nat → Int → Frac → Option (Int × Frac)
  | 0, font_size, calc_height =>
    if Frac.Gt calc_height (Frac.ofInt image_height) ∧
        (font_size > low_font_size ∨ lines_len = 1) then none
    else some (font_size, calc_height)
  | fuel + 1, font_size, calc_height =>
    if Frac.Gt calc_height (Frac.ofInt image_height) ∧
        (font_size > low_font_size ∨ lines_len = 1) then
      let fs := font_size - 1
      let r := bbox fs TEXT_REF
      let line_height := Frac.ofInt ((r.2.2.2 + 1) - r.2.1)
      fit_inner bbox space image_height lines_len low_font_size fuel fs
        (Frac.add line_height
          (Frac.mul (Frac.ofInt ((lines_len : Int) - 1))
            (Frac.mul line_height space)))
    else some (font_size, calc_height)

/-- The outer character-count loop of `text_image_fit_box`
(text_to_image.py:411-429): `characters` is the value before the
`characters += 1` at the top of the body; each iteration re-wraps, computes
`low_font_size = floor(font_size * 0.9) - 1`, runs the inner loop from
`font_size + 1` with `calc_height` reset to `image_height + 100`, and
repeats while the estimate still exceeds the box. -/
def fit_outer (wwfuel : Nat) (bbox : Int → String → Int × Int × Int × Int)
    (text : String) (image_width image_height : Int) (space : Frac) :
    Nat → Int → Option (List String × Int)
  | 0, _ => none
  | fuel + 1, characters =>
    match get_word_wrap wwfuel bbox text image_width (characters + 1) with
    | none => none
    | some (lines, font_size) =>
      match fit_inner bbox space image_height lines.length
          (Frac.floor (Frac.mul (Frac.ofInt font_size) ⟨9, 10⟩) - 1) wwfuel
          (font_size + 1) (Frac.ofInt (image_height + 100)) with
      | none => none
      | some (fs, calc_height) =>
        if Frac.Gt calc_height (Frac.ofInt image_height) then
          fit_outer wwfuel bbox text image_width image_height space fuel
            (characters + 1)
        else some (lines, fs)

/-- text_to_image.py:411-436: the joint search followed by the multiline
render and the vertical ink crop (`left` is discarded, `right` is replaced
by the full image width). -/
def fit_box_prep (fuel : Nat) (env : PILEnv)
    (bbox : Int → String → Int × Int × Int × Int) (text : String)
    (image_width image_height : Int) (foreground : RGBA) (space : Frac)
    (justified : String) (minimum_characters : Int) : Option (Img RGBA) :=
  match fit_outer fuel bbox text image_width image_height space fuel
      (minimum_characters - 1) with
  | none => none
  | some (lines, font_size) =>
    match get_text_multiline_image env bbox lines font_size image_width
        foreground (0, 0, 0, 0) space justified with
    | none => none
    | some image =>
      let b := get_bounds image ((0, 0, 0, 0) : RGBA) false
      cropImg image 0 b.2.1 (image.width : Int) b.2.2.2

/-- text_to_image.py:438-446: allocate the `image_width × image_height`
background and paste the cropped block at the vertical offset selected by
`vertical` (`"t"` → 0, `"b"` → `height - cropped_height`, otherwise
`floor((height - cropped_height)/2)`); a negative offset raises in PIL,
modelled as `none`. -/
def fit_box_compose (env : PILEnv) (cropped : Img RGBA)
    (image_width image_height : Int) (background : RGBA)
    (vertical : String) : Option (Img RGBA) :=
  match imageNew image_width image_height background with
  | none => none
  | some bg =>
    let cropped_height : Int := cropped.height
    let y_position : Int :=
      if vertical = "t" then 0
      else if vertical = "b" then image_height - cropped_height
      else (image_height - cropped_height) / 2
    alphaComposite env.blend bg cropped 0 y_position

/-- `text_image_fit_box` (text_to_image.py:379-448). -/
def text_image_fit_box (fuel : Nat) (env : PILEnv)
    (bbox : Int → String → Int × Int × Int × Int) (text : String)
    (image_width image_height : Int) (foreground background : RGBA)
    (space : Frac) (justified vertical : String)
    (minimum_characters : Int) : Option (Img RGBA) :=
  match fit_box_prep fuel env bbox text image_width image_height foreground
      space justified minimum_characters with
  | none => none
  | some cropped =>
    fit_box_compose env cropped image_width image_height background vertical

/-- C2 (amended): whenever `text_image_fit_box` returns an image, that
image is exactly `image_width × image_height` and is the background canvas
with the cropped text block composited at the vertical offset prescribed by
`vertical` (0 for `"t"`, `height - croppedHeight` for `"b"`,
`floor((height - croppedHeight)/2)` otherwise), that offset being
non-negative.  When the cropped block is taller than the box with
`vertical` ∈ {`"b"`, `"c"`} the offset is negative and the call raises
instead of returning (see the counterexample). -/
theorem text_image_fit_box_geometry (fuel : Nat) (env : PILEnv)
    (bbox : Int → String → Int × Int × Int × Int) (text : String)
    (image_width image_height : Int) (foreground background : RGBA)
    (space : Frac) (justified vertical : String) (minimum_characters : Int)
    (img : Img RGBA)
    (h : text_image_fit_box fuel env bbox text image_width image_height
      foreground background space justified vertical minimum_characters
        = some img) :
    img.width = image_width.toNat ∧ img.height = image_height.toNat ∧
      ∃ cropped,
        fit_box_prep fuel env bbox text image_width image_height foreground
          space justified minimum_characters = some cropped ∧
        0 ≤ (if vertical = "t" then (0 : Int)
          else if vertical = "b" then image_height - (cropped.height : Int)
          else (image_height - (cropped.height : Int)) / 2) ∧
        alphaComposite env.blend
          ⟨image_width.toNat, image_height.toNat, fun _ _ => background⟩
          cropped 0
          (if vertical = "t" then (0 : Int)
            else if vertical = "b" then image_height - (cropped.height : Int)
            else (image_height - (cropped.height : Int)) / 2) = some img := by
  unfold text_image_fit_box at h
  split at h
  · exact Option.noConfusion h
  · rename_i cropped hprep
    unfold fit_box_compose at h
    split at h
    · exact Option.noConfusion h
    · rename_i bg hbg
      dsimp only at h
      obtain ⟨hw, hh, -, hy⟩ := alphaComposite_size _ _ _ _ _ _ h
      unfold imageNew at hbg
      split at hbg
      · exact Option.noConfusion hbg
      · simp only [Option.some.injEq] at hbg
        subst hbg
        exact ⟨hw, hh, cropped, hprep, hy, h⟩

/-- A renderer that inks nothing, with overwrite blending: every rendered
line has empty ink, so the line crop falls back to the double-width
scratch bounds. -/
def env_null : PILEnv := ⟨fun old _ _ _ _ => old, fun _ s => s⟩

set_option maxRecDepth 40000 in
/-- C2 counterexample: the joint search succeeds (text `"ab"`, box 10×3,
spacing 1, minimum 2, under `bbox_sq`), yet `text_image_fit_box` raises
(returns no image at all, let alone a 10×3 one) because a text whose glyphs
ink nothing makes the reference line's crop wider than its target and the
paste offset negative. -/
theorem text_image_fit_box_cex :
    fit_outer 40 bbox_sq "ab" 10 3 ⟨1, 1⟩ 40 (2 - 1) = some (["ab"], 2) ∧
    text_image_fit_box 40 env_null bbox_sq "ab" 10 3 (0, 0, 0, 255)
      (255, 255, 255, 255) ⟨1, 1⟩ "c" "c" 2 = none := by
  exact ⟨rfl, rfl⟩

/-- A renderer that inks the single pixel (1,1) for every text, with
overwrite blending. -/
def env_dot : PILEnv :=
  ⟨fun old _ _ fill _ x y => if x = 1 ∧ y = 1 then fill else old x y,
    fun _ s => s⟩

set_option maxRecDepth 40000 in
/-- C2 witness: a run that returns, with the exact requested size 10×3. -/
theorem text_image_fit_box_geometry_witness :
    ∃ img,
      text_image_fit_box 40 env_dot bbox_sq "ab" 10 3 (0, 0, 0, 255)
        (255, 255, 255, 255) ⟨1, 1⟩ "c" "c" 2 = some img ∧
      img.width = 10 ∧ img.height = 3 := by
  have hS : (text_image_fit_box 40 env_dot bbox_sq "ab" 10 3 (0, 0, 0, 255)
      (255, 255, 255, 255) ⟨1, 1⟩ "c" "c" 2).isSome = true := by rfl
  obtain ⟨img, himg⟩ := Option.isSome_iff_exists.mp hS
  obtain ⟨hw, hh, -⟩ := text_image_fit_box_geometry 40 env_dot bbox_sq "ab"
    10 3 (0, 0, 0, 255) (255, 255, 255, 255) ⟨1, 1⟩ "c" "c" 2 img himg
  exact ⟨img, himg, by rw [hw]; rfl, by rw [hh]; rfl⟩

end EasyTextToImage
